import Mathlib

/-!
Shallow embedding of the `cmtstringer` generator (`main.go`).

The program walks the constant declaration groups of a parsed Go package,
tracks the effective type of each `ValueSpec` under Go's implicit-typing
continuation rules, filters the constants to the requested target type and
derives a one-line message from each constant's doc comment.  The relevant
parts are `parsePackage` (lines 184-253), the output-name computation in
`parseDir` (lines 158-181) and the fixed output template `fileTemplateStr`
(lines 76-92).
-/

/-- The fragment of `go/ast` type expressions that `parsePackage` inspects:
a `*ast.Ident` (a simple identifier type) or any other expression, which the
code only ever tests for not being an identifier. -/
inductive TypeExpr where
  | ident (name : String)
  | other
deriving DecidableEq

/-- One `ast.ValueSpec`: an optional type annotation, the list of bound names
(`vs.Names`, entries may be nil in the code, hence `Option`), whether the spec
carries initializer values (`len(vs.Values) > 0`), and the attached doc
comment's text (`vs.Doc.Text()`), if any. -/
structure ValueSpec where
  type? : Option TypeExpr
  names : List (Option String)
  hasValues : Bool
  doc? : Option String
deriving DecidableEq

/-- A top-level declaration as `parsePackage` sees it: a `GenDecl` with token
`CONST` (carrying its specs), or anything else, which is skipped. -/
inductive Decl where
  | constDecl (specs : List ValueSpec)
  | otherDecl
deriving DecidableEq

/-- A file is its ordered list of top-level declarations. -/
abbrev GoFile := List Decl

/-- A package is its files (iteration order of `pkg.Files` is modelled as a
list; the order across files is not relevant to any claim here). -/
abbrev GoPackage := List GoFile

/-- `constValue` from `main.go` lines 98-102: the name of a constant and the
message derived from its doc comment. -/
structure constValue where
  Name : String
  Msg : String
deriving DecidableEq

/-- `strings.HasPrefix s pre` on rune lists: `hasPreL pre s` is true iff `pre`
is a prefix of `s`. -/
def hasPreL : List Char → List Char → Bool
  | [], _ => true
  | _ :: _, [] => false
  | c :: cs, d :: ds => c == d && hasPreL cs ds

/-- `strings.TrimPrefix s pre`: drop `pre` from the front of `s` when it is a
prefix, otherwise return `s` unchanged. -/
def trimPreL (pre l : List Char) : List Char :=
  if hasPreL pre l then l.drop pre.length else l

/-- `unicode.IsSpace`: Go's White_Space set, U+0009..U+000D, U+0020, U+0085,
U+00A0, U+1680, U+2000..U+200A, U+2028, U+2029, U+202F, U+205F, U+3000. -/
def goIsSpace (c : Char) : Bool :=
  c == ' ' || c == '\t' || c == '\n' || c == '\x0b' || c == '\x0c' || c == '\r' ||
  c == '\u0085' || c == '\u00A0' || c == '\u1680' ||
  (decide (0x2000 ≤ c.toNat) && decide (c.toNat ≤ 0x200A)) ||
  c == '\u2028' || c == '\u2029' || c == '\u202F' || c == '\u205F' || c == '\u3000'

/-- `strings.TrimSpace`: drop `unicode.IsSpace` runes from both ends. -/
def trimSpaceL (l : List Char) : List Char :=
  ((l.dropWhile goIsSpace).reverse.dropWhile goIsSpace).reverse

/-- The `strings.NewReplacer("\r\n", " ", "\r", " ", "\n", " ")` replacement of
`main.go` line 234: scanning left to right, a CRLF pair becomes one space (the
longer pattern is listed first, so it wins over the lone CR), and any other CR
or LF becomes one space. -/
def flattenL : List Char → List Char
  | [] => []
  | c :: rest =>
    if c = '\r' then
      match rest with
      | [] => [' ']
      | d :: rest' =>
        if d = '\n' then ' ' :: flattenL rest' else ' ' :: flattenL (d :: rest')
    else if c = '\n' then ' ' :: flattenL rest
    else c :: flattenL rest

/-- String-level wrapper of `flattenL`. -/
def flattenStr (s : String) : String := ⟨flattenL s.data⟩

/-- `unicode.IsUpper` restricted to the Latin-1 repertoire (ASCII `A`-`Z` and
`À`-`Þ` without `×`); uppercase letters outside Latin-1 are not modelled and
map to `false`. -/
def goIsUpper (c : Char) : Bool :=
  (decide ('A' ≤ c) && decide (c ≤ 'Z')) ||
  (decide (0xC0 ≤ c.toNat) && decide (c.toNat ≤ 0xDE) && decide (c.toNat ≠ 0xD7))

/-- `token.IsExported` as used by `ast.Ident.IsExported`: the first rune is an
upper-case letter; the empty name is not exported. -/
def isExported (s : String) : Bool :=
  match s.data with
  | [] => false
  | c :: _ => goIsUpper c

/-- Lines 230-239 of `main.go`: with no doc comment the message is empty;
otherwise, when the raw comment starts with the constant's name, the comment
is flattened (line breaks to single spaces), the leading name occurrence is
trimmed and the result is trimmed of surrounding space; when the raw comment
does not start with the name the message stays empty. -/
def deriveMessage (constName : String) (doc? : Option String) : String :=
  match doc? with
  | none => ""
  | some comment =>
    if hasPreL constName.data comment.data then
      ⟨trimSpaceL (trimPreL constName.data (flattenL comment.data))⟩
    else ""

/-- Lines 220-247 of `main.go`: scan a spec's names, skipping nil entries, the
blank identifier and non-exported names, and pair each kept name with the
message derived from the spec's doc comment. -/
def emitSpecNames (vs : ValueSpec) : List constValue :=
  vs.names.filterMap fun n? =>
    match n? with
    | none => none
    | some n =>
      if n = "_" ∨ isExported n = false then none
      else some { Name := n, Msg := deriveMessage n vs.doc? }

/-- Lines 196-248 of `main.go`: the remembered-type loop over one group's
specs.  `typ` is the remembered type (`var typ string`): an untyped spec with
values clears it and is skipped; a simple-identifier type annotation sets it;
a non-identifier type annotation skips the spec leaving `typ` unchanged; a
bare spec inherits `typ`; names are scanned only when the (updated) remembered
type equals the target. -/
def parseSpecs (target : String) : String → List ValueSpec → List constValue
  | _, [] => []
  | typ, vs :: rest =>
    match vs.type?, vs.hasValues with
    | none, true => parseSpecs target "" rest
    | none, false =>
      (if typ = target then emitSpecNames vs else []) ++ parseSpecs target typ rest
    | some (TypeExpr.ident t), _ =>
      (if t = target then emitSpecNames vs else []) ++ parseSpecs target t rest
    | some TypeExpr.other, _ => parseSpecs target typ rest

/-- Lines 187-194 of `main.go`: only `GenDecl`s with token `CONST` are
scanned; the remembered type starts empty for each such group. -/
def parseGenDecl (target : String) (d : Decl) : List constValue :=
  match d with
  | Decl.constDecl specs => parseSpecs target "" specs
  | Decl.otherDecl => []

/-- One file's contribution to `parsePackage`'s result, in declaration order. -/
def parseFileDecls (target : String) (f : GoFile) : List constValue :=
  (f.map (parseGenDecl target)).flatten

/-- `parsePackage` (lines 184-253): concatenate the candidates of all files. -/
def parsePackage (target : String) (pkg : GoPackage) : List constValue :=
  (pkg.map (parseFileDecls target)).flatten

example :
    deriveMessage "StatusBadRequest" (some "StatusBadRequest Bad Request\n") =
      "Bad Request" := by decide

example : deriveMessage "Status" (some "StatusFoo bar") = "Foo bar" := by decide

example : deriveMessage "Status" (some "No match") = "" := by decide

/-- Spec-side (claim C1's wording): does this spec clear the remembered type,
i.e. carry no explicit type but an explicit initializer? -/
def clearsType (vs : ValueSpec) : Bool :=
  match vs.type?, vs.hasValues with
  | none, true => true
  | _, _ => false

/-- Modelled from the spec's words (state-machine reference for C1): the
remembered type after one spec — cleared by an untyped initialized spec, set
by a simple-identifier annotation, inherited otherwise.  Compound-typed specs
are outside the claim's enumeration; they are kept inert here and excluded by
the equivalence theorem's hypothesis. -/
def specUpdate (typ : String) (vs : ValueSpec) : String :=
  match vs.type?, vs.hasValues with
  | none, true => ""
  | some (TypeExpr.ident t), _ => t
  | some TypeExpr.other, _ => typ
  | none, false => typ

/-- Modelled from the spec's words: a spec's names are emitted exactly when
the remembered type after the updates equals the target — except that a spec
clearing the type is never emitted. -/
def specEmits (target : String) (vs : ValueSpec) (typ' : String) : Prop :=
  clearsType vs = false ∧ typ' = target

instance (target : String) (vs : ValueSpec) (typ' : String) :
    Decidable (specEmits target vs typ') := by
  unfold specEmits; infer_instance

/-- Modelled from the spec's words: process a group spec-by-spec, updating the
remembered type and emitting the names of each spec that qualifies. -/
def specGroup (target : String) : String → List ValueSpec → List constValue
  | _, [] => []
  | typ, vs :: rest =>
    (if specEmits target vs (specUpdate typ vs) then emitSpecNames vs else []) ++
      specGroup target (specUpdate typ vs) rest

/-- Modelled from the spec's words: every group starts with an empty
remembered type — no typing state leaks from one group to the next. -/
def specDeclCands (target : String) (d : Decl) : List constValue :=
  match d with
  | Decl.constDecl specs => specGroup target "" specs
  | Decl.otherDecl => []

/-- Spec-side candidate list of a whole package. -/
def specPackageCands (target : String) (pkg : GoPackage) : List constValue :=
  (pkg.map (fun f => (f.map (specDeclCands target)).flatten)).flatten

/-- Modelled from claim C2's words: an identifier character (used to decide a
token boundary). -/
def isIdentChar (c : Char) : Bool := c.isAlphanum || c == '_'

/-- Modelled from claim C2's words: the text starts with `name` as a
case-sensitive full token match — `name` is a prefix and is followed by the
end of the text or by a non-identifier character. -/
def startsWithNameToken (name text : String) : Bool :=
  hasPreL name.data text.data &&
    (match text.data.drop name.data.length with
     | [] => true
     | c :: _ => !isIdentChar c)

/-- Semantics of the method emitted by `fileTemplateStr` (lines 76-92): a
switch over the receiver's value with one case per extracted constant, in
extraction order, returning that constant's message, and a default branch
returning "Unknown".  `env` gives each constant name's value. -/
def generatedSwitch (consts : List constValue) (env : String → Int) (v : Int) : String :=
  match consts with
  | [] => "Unknown"
  | cv :: rest => if env cv.Name = v then cv.Msg else generatedSwitch rest env v

/-- `strings.ToLower` on one Latin-1 rune (`A`-`Z` and `À`-`Þ` without `×`
shift by 32; everything else in Latin-1 is unchanged by `unicode.ToLower`). -/
def goToLowerChar (c : Char) : Char :=
  if 'A' ≤ c ∧ c ≤ 'Z' then Char.ofNat (c.toNat + 32)
  else if 0xC0 ≤ c.toNat ∧ c.toNat ≤ 0xDE ∧ c.toNat ≠ 0xD7 then Char.ofNat (c.toNat + 32)
  else c

/-- `strings.ToLower`, rune by rune. -/
def goToLower (s : String) : String := ⟨s.data.map goToLowerChar⟩

/-- The leading byte of the UTF-8 encoding of a rune. -/
def utf8FirstByte (c : Char) : Nat :=
  if c.toNat < 0x80 then c.toNat
  else if c.toNat < 0x800 then 0xC0 + c.toNat / 64
  else if c.toNat < 0x10000 then 0xE0 + c.toNat / 4096
  else 0xF0 + c.toNat / 262144

/-- Line 166 of `main.go`: `strings.ToLower(string((*typeName)[0]))`.  Go
indexes the string by byte and converts that byte, read as a code point, back
to a one-rune string.  The empty type name is unreachable (`main` exits when
the flag is empty); it is mapped to the empty string here. -/
def recieverOf (typeName : String) : String :=
  match typeName.data with
  | [] => ""
  | c :: _ => goToLower ⟨[Char.ofNat (utf8FirstByte c)]⟩

/-- `filepath.Join dir name` for an already-clean directory path: joining with
"" or "." leaves just the name (Join cleans the result), otherwise the two are
joined with a separator. -/
def filepathJoin (dir name : String) : String :=
  if dir = "" ∨ dir = "." then name else dir ++ "/" ++ name

/-- Lines 170-178 of `main.go`: the output file name — the `-output` flag if
set, else `<lowercased type name>_string_gen.go` joined under the source
directory; when more than one package was parsed, the package name and an
underscore are prepended to the whole string. -/
def outputFileName (outputFlag dir typeName pkgName : String) (numPkgs : Nat) : String :=
  let o := if outputFlag = "" then filepathJoin dir (goToLower (typeName ++ "_string_gen.go"))
           else outputFlag
  if numPkgs > 1 then pkgName ++ "_" ++ o else o

/-- Lines 148-181 of `main.go`, abstracted to the data produced: for each
parsed package, the extracted candidates; packages with no candidates are
skipped and produce nothing. -/
def parseDirGen (target : String) (pkgs : List (String × GoPackage)) :
    List (String × List constValue) :=
  pkgs.filterMap fun p =>
    if parsePackage target p.2 = [] then none else some (p.1, parsePackage target p.2)

/-- The example package of the repository (`http/statuscode.go`): type
declaration `StatusCode int`, then one const group with two documented,
typed, initialized specs.  Doc texts carry the trailing newline that
`CommentGroup.Text()` produces. -/
def httpFile : GoFile :=
  [Decl.otherDecl,
   Decl.constDecl
     [{ type? := some (TypeExpr.ident "StatusCode"),
        names := [some "StatusBadRequest"], hasValues := true,
        doc? := some "StatusBadRequest Bad Request\n" },
      { type? := some (TypeExpr.ident "StatusCode"),
        names := [some "StatusNotFound"], hasValues := true,
        doc? := some "StatusNotFound Not Found\n" }]]

/-- The example package as a parsed-package value. -/
def httpPkg : GoPackage := [httpFile]

/-- The constant values declared in the example package. -/
def httpEnv : String → Int := fun n =>
  if n = "StatusBadRequest" then 400 else if n = "StatusNotFound" then 404 else 0

example :
    parsePackage "StatusCode" httpPkg =
      [{ Name := "StatusBadRequest", Msg := "Bad Request" },
       { Name := "StatusNotFound", Msg := "Not Found" }] := by decide

example : recieverOf "StatusCode" = "s" := by decide

example : outputFileName "" "." "StatusCode" "http" 1 = "statuscode_string_gen.go" := by
  decide

example : outputFileName "" "src" "StatusCode" "http" 2 =
    "http_src/statuscode_string_gen.go" := by decide

/-- C10: a spec whose explicit type annotation is not a simple identifier has
its names skipped and leaves the remembered type unchanged — processing the
rest of the group proceeds exactly as if the compound-typed spec had not
appeared, so a later bare spec still inherits the nearest preceding
simple-identifier type. -/
theorem c10_compound_type_inert (target typ : String) (names : List (Option String))
    (hv : Bool) (doc : Option String) (rest : List ValueSpec) :
    parseSpecs target typ
      ({ type? := some TypeExpr.other, names := names, hasValues := hv, doc? := doc } :: rest) =
      parseSpecs target typ rest := by
  cases hv <;> rfl

/-- C2, counterexample: the guard is not a full-token match.  A candidate
constant `Status` of type `T` with doc `StatusFoo bar` is extracted with
message `Foo bar`, although the flattened text does not start with the name at
a token boundary, so the claim requires the empty message. -/
theorem c2_token_boundary_counterexample :
    parsePackage "T"
        [[Decl.constDecl
            [{ type? := some (TypeExpr.ident "T"), names := [some "Status"],
               hasValues := true, doc? := some "StatusFoo bar" }]]] =
      [{ Name := "Status", Msg := "Foo bar" }] ∧
    startsWithNameToken "Status" (flattenStr "StatusFoo bar") = false ∧
    deriveMessage "Status" (some "StatusFoo bar") = "Foo bar" ∧
    ("Foo bar" : String) ≠ "" := by decide

/-- C2, amended: the code checks a plain case-sensitive string-prefix (not a
token-boundary match) against the raw doc text; whenever the doc text does not
start with the constant's name as a string prefix, the message is empty. -/
theorem c2_plain_prefix_guard (name doc : String)
    (h : hasPreL name.data doc.data = false) :
    deriveMessage name (some doc) = "" := by
  simp [deriveMessage, h]

/-- Witness for the amended C2 at a concrete input. -/
theorem c2_plain_prefix_guard_witness :
    deriveMessage "Status" (some "No match") = "" :=
  c2_plain_prefix_guard "Status" "No match" (by decide)

/-- C6, counterexample: with two packages and source directory `src`, the
package prefix is applied to the whole joined path, so the file lands in
`http_src/`, not inside `src` with a prefixed file name. -/
theorem c6_multi_package_counterexample :
    outputFileName "" "src" "StatusCode" "http" 2 = "http_src/statuscode_string_gen.go" ∧
    hasPreL "src/".data "http_src/statuscode_string_gen.go".data = false ∧
    "http_src/statuscode_string_gen.go" ≠
      filepathJoin "src" ("http" ++ "_" ++ goToLower ("StatusCode" ++ "_string_gen.go")) := by
  decide

/-- C6, amended: with one package the default output is the lowercased
`<type>_string_gen.go` joined under the source directory; with more than one
package the package name and an underscore are prepended to that whole path
(directory component included), so the output stays inside the source
directory only when the directory is `.` or empty. -/
theorem c6_output_naming (dir typeName pkgName : String) (numPkgs : Nat) :
    (numPkgs ≤ 1 → outputFileName "" dir typeName pkgName numPkgs =
      filepathJoin dir (goToLower (typeName ++ "_string_gen.go"))) ∧
    (numPkgs > 1 → outputFileName "" dir typeName pkgName numPkgs =
      pkgName ++ "_" ++ filepathJoin dir (goToLower (typeName ++ "_string_gen.go"))) := by
  constructor
  · intro h
    have h2 : ¬ numPkgs > 1 := by omega
    simp [outputFileName, h2]
  · intro h
    simp [outputFileName, h]

/-- Witness for the amended C6 at concrete inputs. -/
theorem c6_output_naming_witness :
    outputFileName "" "src" "StatusCode" "http" 1 =
      filepathJoin "src" (goToLower ("StatusCode" ++ "_string_gen.go")) ∧
    outputFileName "" "src" "StatusCode" "http" 2 =
      "http" ++ "_" ++ filepathJoin "src" (goToLower ("StatusCode" ++ "_string_gen.go")) :=
  ⟨(c6_output_naming "src" "StatusCode" "http" 1).1 (by decide),
   (c6_output_naming "src" "StatusCode" "http" 2).2 (by decide)⟩

/-- C7: a package with zero matching constants is skipped — it contributes no
output and processing continues with the remaining packages — and every output
that is produced comes from a package with at least one matching constant. -/
theorem c7_zero_matches_skip (target nm : String) (pkg : GoPackage)
    (rest : List (String × GoPackage)) (h : parsePackage target pkg = []) :
    parseDirGen target ((nm, pkg) :: rest) = parseDirGen target rest ∧
    ∀ pkgs out, out ∈ parseDirGen target pkgs → out.2 ≠ [] := by
  constructor
  · simp [parseDirGen, h]
  · intro pkgs out hout
    unfold parseDirGen at hout
    rw [List.mem_filterMap] at hout
    obtain ⟨p, _, hf⟩ := hout
    by_cases hz : parsePackage target p.2 = []
    · rw [if_pos hz] at hf; cases hf
    · rw [if_neg hz] at hf
      cases hf
      exact hz

/-- Witness for C7 at a concrete input: the empty package matches nothing and
is skipped. -/
theorem c7_zero_matches_skip_witness :
    parseDirGen "StatusCode" [("p", ([] : GoPackage))] = parseDirGen "StatusCode" [] :=
  (c7_zero_matches_skip "StatusCode" "p" [] [] rfl).1

/-- C9: for every non-empty target type name the receiver is the one-character
string obtained by lower-casing the rune made of the leading UTF-8 byte of the
name's first character; in particular it has length one, depends only on the
first character, and for an ASCII upper-case first letter it is exactly that
letter lower-cased. -/
theorem c9_reciever_ident (c : Char) (cs : List Char) :
    recieverOf ⟨c :: cs⟩ = ⟨[goToLowerChar (Char.ofNat (utf8FirstByte c))]⟩ ∧
    (recieverOf ⟨c :: cs⟩).length = 1 ∧
    (65 ≤ c.toNat → c.toNat ≤ 90 →
      recieverOf ⟨c :: cs⟩ = ⟨[Char.ofNat (c.toNat + 32)]⟩) := by
  refine ⟨rfl, rfl, fun h1 h2 => ?_⟩
  show goToLower ⟨[Char.ofNat (utf8FirstByte c)]⟩ = _
  have hb : utf8FirstByte c = c.toNat := by
    unfold utf8FirstByte
    rw [if_pos (by omega)]
  rw [hb, Char.ofNat_toNat]
  show (⟨[goToLowerChar c]⟩ : String) = _
  have hA : 'A' ≤ c := by
    rw [Char.le_def]
    exact h1
  have hZ : c ≤ 'Z' := by
    rw [Char.le_def]
    exact h2
  unfold goToLowerChar
  rw [if_pos ⟨hA, hZ⟩]

/-- Witness for C9 at a concrete input. -/
theorem c9_reciever_ident_witness :
    recieverOf ⟨'S' :: "tatusCode".data⟩ = ⟨['S'.toNat + 32 |> Char.ofNat]⟩ :=
  (c9_reciever_ident 'S' "tatusCode".data).2.2 (by decide) (by decide)

theorem flattenL_cons_plain (c : Char) (l : List Char) (h1 : ¬ c = '\r') (h2 : ¬ c = '\n') :
    flattenL (c :: l) = c :: flattenL l := by
  rw [flattenL.eq_def]
  dsimp only
  rw [if_neg h1, if_neg h2]

theorem flattenL_cr_nil : flattenL ['\r'] = [' '] := by
  rw [flattenL]; rw [if_pos rfl]

theorem flattenL_crlf (l : List Char) : flattenL ('\r' :: '\n' :: l) = ' ' :: flattenL l := by
  rw [flattenL]; rw [if_pos rfl]; rw [if_pos rfl]

theorem flattenL_cr_cons (d : Char) (l : List Char) (hd : ¬ d = '\n') :
    flattenL ('\r' :: d :: l) = ' ' :: flattenL (d :: l) := by
  rw [flattenL]; rw [if_pos rfl]; rw [if_neg hd]

theorem flattenL_lf (l : List Char) : flattenL ('\n' :: l) = ' ' :: flattenL l := by
  rw [flattenL.eq_def]
  dsimp only
  rw [if_neg (by decide), if_pos rfl]

theorem mem_flattenL_not_nl : ∀ (l : List Char), ∀ c ∈ flattenL l, ¬ c = '\r' ∧ ¬ c = '\n' := by
  intro l
  induction l using flattenL.induct with
  | case1 => intro c hc; cases hc
  | case2 =>
    intro c hc
    rw [flattenL_cr_nil] at hc
    rcases List.mem_singleton.mp hc with rfl
    exact ⟨by decide, by decide⟩
  | case3 rest' ih =>
    intro c hc
    rw [flattenL_crlf] at hc
    rcases List.mem_cons.mp hc with h | h
    · subst h; exact ⟨by decide, by decide⟩
    · exact ih c h
  | case4 d rest' hd ih =>
    intro c hc
    rw [flattenL_cr_cons d rest' hd] at hc
    rcases List.mem_cons.mp hc with h | h
    · subst h; exact ⟨by decide, by decide⟩
    · exact ih c h
  | case5 rest h ih =>
    intro c hc
    rw [flattenL_lf] at hc
    rcases List.mem_cons.mp hc with h | h
    · subst h; exact ⟨by decide, by decide⟩
    · exact ih c h
  | case6 c0 rest h1 h2 ih =>
    intro c hc
    rw [flattenL_cons_plain c0 rest h1 h2] at hc
    rcases List.mem_cons.mp hc with h | h
    · subst h; exact ⟨h1, h2⟩
    · exact ih c h

theorem flattenL_fixed : ∀ (l : List Char),
    (∀ c ∈ l, ¬ c = '\r' ∧ ¬ c = '\n') → flattenL l = l := by
  intro l
  induction l with
  | nil => intro _; rfl
  | cons c l ih =>
    intro h
    have hc := h c (List.mem_cons_self c l)
    rw [flattenL_cons_plain c l hc.1 hc.2, ih (fun x hx => h x (List.mem_cons_of_mem c hx))]

theorem flattenL_idem (l : List Char) : flattenL (flattenL l) = flattenL l :=
  flattenL_fixed _ (mem_flattenL_not_nl l)

theorem hasPreL_cons_ne {c d : Char} (nm ds : List Char) (h : ¬ c = d) :
    hasPreL (c :: nm) (d :: ds) = false := by
  simp [hasPreL, h]

theorem hasPreL_flattenL : ∀ (nm : List Char),
    (∀ x ∈ nm, ¬ x = ' ' ∧ ¬ x = '\r' ∧ ¬ x = '\n') →
    ∀ l, hasPreL nm (flattenL l) = hasPreL nm l := by
  intro nm
  induction nm with
  | nil => intro _ l; rfl
  | cons c nm ih =>
    intro h l
    have hc := h c (List.mem_cons_self c nm)
    have hrest := fun x hx => h x (List.mem_cons_of_mem c hx)
    cases l with
    | nil => rfl
    | cons d l' =>
      by_cases hd : d = '\r'
      · subst hd
        cases l' with
        | nil =>
          rw [flattenL_cr_nil]
          rw [hasPreL_cons_ne nm [] hc.1, hasPreL_cons_ne nm [] hc.2.1]
        | cons e l'' =>
          by_cases he : e = '\n'
          · subst he
            rw [flattenL_crlf]
            rw [hasPreL_cons_ne nm _ hc.1, hasPreL_cons_ne nm _ hc.2.1]
          · rw [flattenL_cr_cons e l'' he]
            rw [hasPreL_cons_ne nm _ hc.1, hasPreL_cons_ne nm _ hc.2.1]
      · by_cases hn : d = '\n'
        · subst hn
          rw [flattenL_lf]
          rw [hasPreL_cons_ne nm _ hc.1, hasPreL_cons_ne nm _ hc.2.2]
        · rw [flattenL_cons_plain d l' hd hn]
          simp only [hasPreL]
          rw [ih hrest l']

/-- C8: label derivation is idempotent — for any constant name (an identifier,
hence free of spaces and line breaks) and any doc text, deriving the message
from the already-flattened text gives the same result as deriving it from the
original text. -/
theorem c8_derivation_idempotent (name doc : String)
    (h : ∀ x ∈ name.data, ¬ x = ' ' ∧ ¬ x = '\r' ∧ ¬ x = '\n') :
    deriveMessage name (some (flattenStr doc)) = deriveMessage name (some doc) := by
  unfold deriveMessage flattenStr
  change (if hasPreL name.data (flattenL doc.data) then
      (⟨trimSpaceL (trimPreL name.data (flattenL (flattenL doc.data)))⟩ : String) else "") =
    (if hasPreL name.data doc.data then
      (⟨trimSpaceL (trimPreL name.data (flattenL doc.data))⟩ : String) else "")
  rw [hasPreL_flattenL name.data h doc.data, flattenL_idem]

/-- Witness for C8 at a concrete input with a real line break. -/
theorem c8_derivation_idempotent_witness :
    deriveMessage "A" (some (flattenStr "A\nb")) = deriveMessage "A" (some "A\nb") :=
  c8_derivation_idempotent "A" "A\nb" (by decide)

/-- C4: a candidate with no doc comment still yields an entry whose message is
empty (third conjunct: such a spec of the target type is included, not
omitted); when the doc comment begins with the constant's name, the message is
the flattened text with exactly the leading name occurrence removed and the
ends trimmed, everything else passing through unchanged. -/
theorem c4_label_derivation (name doc : String) (target typ n : String) (hv : Bool)
    (rest : List ValueSpec) :
    deriveMessage name none = "" ∧
    ((∀ x ∈ name.data, ¬ x = ' ' ∧ ¬ x = '\r' ∧ ¬ x = '\n') →
      hasPreL name.data doc.data = true →
      deriveMessage name (some doc) =
        ⟨trimSpaceL ((flattenL doc.data).drop name.data.length)⟩) ∧
    (¬ n = "_" → isExported n = true →
      parseSpecs target typ
        ({ type? := some (TypeExpr.ident target), names := [some n],
           hasValues := hv, doc? := none } :: rest) =
        { Name := n, Msg := "" } :: parseSpecs target target rest) := by
  refine ⟨rfl, fun hid hpre => ?_, fun hn hex => ?_⟩
  · simp only [deriveMessage, trimPreL]
    rw [hasPreL_flattenL name.data hid doc.data, hpre]
    simp
  · cases hv <;> simp [parseSpecs, emitSpecNames, hn, hex, deriveMessage]

/-- Witness for C4 at concrete inputs. -/
theorem c4_label_derivation_witness :
    deriveMessage "A" (some "A b") =
      ⟨trimSpaceL ((flattenL "A b".data).drop "A".data.length)⟩ ∧
    parseSpecs "T" ""
        [{ type? := some (TypeExpr.ident "T"), names := [some "N"],
           hasValues := true, doc? := none }] =
      { Name := "N", Msg := "" } :: parseSpecs "T" "T" [] :=
  ⟨(c4_label_derivation "A" "A b" "T" "" "N" true []).2.1 (by decide) (by decide),
   (c4_label_derivation "A" "A b" "T" "" "N" true []).2.2 (by decide) (by decide)⟩

theorem mem_emitSpecNames_props {cv : constValue} {vs : ValueSpec}
    (h : cv ∈ emitSpecNames vs) : ¬ cv.Name = "_" ∧ isExported cv.Name = true := by
  unfold emitSpecNames at h
  rw [List.mem_filterMap] at h
  obtain ⟨n?, _, hf⟩ := h
  cases n? with
  | none => cases hf
  | some n =>
    dsimp only at hf
    by_cases hcond : n = "_" ∨ isExported n = false
    · rw [if_pos hcond] at hf; cases hf
    · rw [if_neg hcond] at hf
      injection hf with hf2
      subst hf2
      push_neg at hcond
      exact ⟨hcond.1, Bool.ne_false_iff.mp hcond.2⟩

theorem mem_parseSpecs_props (target : String) :
    ∀ (specs : List ValueSpec) (typ : String) (cv : constValue),
      cv ∈ parseSpecs target typ specs → ¬ cv.Name = "_" ∧ isExported cv.Name = true := by
  intro specs
  induction specs with
  | nil => intro typ cv h; cases h
  | cons vs rest ih =>
    intro typ cv h
    obtain ⟨ty?, nms, hv, doc?⟩ := vs
    cases ty? with
    | none =>
      cases hv with
      | true => exact ih "" cv h
      | false =>
        simp only [parseSpecs] at h
        rw [List.mem_append] at h
        rcases h with h | h
        · split at h
          · exact mem_emitSpecNames_props h
          · cases h
        · exact ih typ cv h
    | some te =>
      cases te with
      | ident t =>
        simp only [parseSpecs] at h
        rw [List.mem_append] at h
        rcases h with h | h
        · split at h
          · exact mem_emitSpecNames_props h
          · cases h
        · exact ih t cv h
      | other => exact ih typ cv h

/-- C5: every entry the extractor outputs has a name that is neither the blank
identifier nor non-exported, for every input package and target type. -/
theorem c5_exported_only (target : String) (pkg : GoPackage) (cv : constValue)
    (h : cv ∈ parsePackage target pkg) :
    ¬ cv.Name = "_" ∧ isExported cv.Name = true := by
  unfold parsePackage at h
  rw [List.mem_flatten] at h
  obtain ⟨fl, hfl, hcv⟩ := h
  rw [List.mem_map] at hfl
  obtain ⟨f, _, rfl⟩ := hfl
  unfold parseFileDecls at hcv
  rw [List.mem_flatten] at hcv
  obtain ⟨dl, hdl, hcv⟩ := hcv
  rw [List.mem_map] at hdl
  obtain ⟨d, _, rfl⟩ := hdl
  cases d with
  | constDecl specs => exact mem_parseSpecs_props target specs "" cv hcv
  | otherDecl => cases hcv

/-- Witness for C5 at a concrete input. -/
theorem c5_exported_only_witness :
    ¬ ({ Name := "StatusBadRequest", Msg := "Bad Request" } : constValue).Name = "_" ∧
    isExported ({ Name := "StatusBadRequest", Msg := "Bad Request" } : constValue).Name = true :=
  c5_exported_only "StatusCode" httpPkg _ (by decide)

/-- No spec of this declaration carries a compound (non-identifier) type
annotation; such specs are the subject of C10 and outside C1's enumeration. -/
def noCompound (d : Decl) : Bool :=
  match d with
  | Decl.constDecl specs => specs.all fun vs => decide (vs.type? ≠ some TypeExpr.other)
  | Decl.otherDecl => true

theorem parseSpecs_eq_specGroup (target : String) :
    ∀ (specs : List ValueSpec) (typ : String),
      (∀ vs ∈ specs, vs.type? ≠ some TypeExpr.other) →
      parseSpecs target typ specs = specGroup target typ specs := by
  intro specs
  induction specs with
  | nil => intro typ _; rfl
  | cons vs rest ih =>
    intro typ h
    have hvs := h vs (List.mem_cons_self vs rest)
    have hrest := fun x hx => h x (List.mem_cons_of_mem vs hx)
    obtain ⟨ty?, nms, hv, doc?⟩ := vs
    cases ty? with
    | none =>
      cases hv with
      | true =>
        simp only [parseSpecs, specGroup, specUpdate, specEmits, clearsType]
        rw [ih "" hrest]
        simp
      | false =>
        simp only [parseSpecs, specGroup, specUpdate, specEmits, clearsType]
        rw [ih typ hrest]
        simp
    | some te =>
      cases te with
      | ident t =>
        simp only [parseSpecs, specGroup, specUpdate, specEmits, clearsType]
        rw [ih t hrest]
        simp
      | other => exact absurd rfl hvs

theorem parseFileDecls_eq_spec (target : String) (f : GoFile)
    (h : ∀ d ∈ f, noCompound d = true) :
    parseFileDecls target f = (f.map (specDeclCands target)).flatten := by
  induction f with
  | nil => rfl
  | cons d f ih =>
    show parseGenDecl target d ++ parseFileDecls target f =
      specDeclCands target d ++ (f.map (specDeclCands target)).flatten
    rw [ih (fun d' hd' => h d' (List.mem_cons_of_mem d hd'))]
    congr 1
    cases d with
    | constDecl specs =>
      have hd := h (Decl.constDecl specs) (List.mem_cons_self _ f)
      simp only [noCompound, List.all_eq_true, decide_eq_true_eq] at hd
      exact parseSpecs_eq_specGroup target specs "" hd
    | otherDecl => rfl

/-- C1: the extractor implements exactly the remembered-type state machine the
spec describes — per group the remembered type starts empty (no typing state
leaks across groups), an untyped spec with an initializer clears it and is
never emitted, a simple-identifier annotation sets it, a bare spec inherits
it, and a spec's names are emitted exactly when the updated remembered type
equals the target — stated as equality with the spec-side reference
`specPackageCands` over every package whose groups stay within the claim's
three enumerated spec shapes. -/
theorem c1_extractor_state_machine (target : String) (pkg : GoPackage)
    (h : ∀ f ∈ pkg, ∀ d ∈ f, noCompound d = true) :
    parsePackage target pkg = specPackageCands target pkg := by
  induction pkg with
  | nil => rfl
  | cons f pkg ih =>
    show parseFileDecls target f ++ parsePackage target pkg =
      (f.map (specDeclCands target)).flatten ++ specPackageCands target pkg
    rw [parseFileDecls_eq_spec target f (h f (List.mem_cons_self f pkg)),
      ih (fun f' hf' => h f' (List.mem_cons_of_mem f hf'))]

/-- Witness for C1 on the repository's example package. -/
theorem c1_extractor_state_machine_witness :
    parsePackage "StatusCode" httpPkg = specPackageCands "StatusCode" httpPkg :=
  c1_extractor_state_machine "StatusCode" httpPkg (by decide)

/-- C3: on the example package (`StatusCode` with `StatusBadRequest` and
`StatusNotFound`), the generated method returns "Bad Request" on 400,
"Not Found" on 404, and "Unknown" on every other value of the type. -/
theorem c3_generated_switch_roundtrip :
    generatedSwitch (parsePackage "StatusCode" httpPkg) httpEnv 400 = "Bad Request" ∧
    generatedSwitch (parsePackage "StatusCode" httpPkg) httpEnv 404 = "Not Found" ∧
    ∀ v : Int, v ≠ 400 → v ≠ 404 →
      generatedSwitch (parsePackage "StatusCode" httpPkg) httpEnv v = "Unknown" := by
  have hp : parsePackage "StatusCode" httpPkg =
      [{ Name := "StatusBadRequest", Msg := "Bad Request" },
       { Name := "StatusNotFound", Msg := "Not Found" }] := by decide
  have e1 : httpEnv "StatusBadRequest" = 400 := by decide
  have e2 : httpEnv "StatusNotFound" = 404 := by decide
  refine ⟨by rw [hp]; decide, by rw [hp]; decide, fun v h1 h2 => ?_⟩
  rw [hp]
  simp only [generatedSwitch]
  rw [e1, e2, if_neg (Ne.symm h1), if_neg (Ne.symm h2)]

/-- Witness for C3's default branch at a concrete out-of-range value. -/
theorem c3_generated_switch_roundtrip_witness :
    generatedSwitch (parsePackage "StatusCode" httpPkg) httpEnv 500 = "Unknown" :=
  c3_generated_switch_roundtrip.2.2 500 (by decide) (by decide)
